import Mathlib

/-!
# Verification of the SSR (Semantic Similarity Rating) core

Shallow embedding, over exact real arithmetic, of the numeric core of the
`sage` backend:

* `ssr_core/ssr_model.py` — the normalizer `similarities_to_probabilities`,
  the `RatingDistribution` record with its derived statistics, and the
  single/batch rating paths (`rate_response`, `_rate_responses_batch`);
* `main.py` — `aggregate_distributions_by_question`;
* `ground_truth_metrics.py` — `kl_divergence`, `js_divergence`,
  `wasserstein_dist`, `mean_absolute_error`, `chi_squared_test`,
  `compare_distributions`, `compare_survey_runs`.

numpy arrays are embedded as `List ℝ`; machine floats as exact reals;
Python exceptions as `Except String`; the external embedding provider as an
arbitrary function `String → List ℝ` (the deterministic-provider
hypothesis); `scipy.stats.chisquare`'s p-value as an arbitrary function of
the statistic and the degrees of freedom, which is all it depends on.
-/

open Real

noncomputable section

namespace SSR

/-- numpy `v / v.sum()`: divide every entry of a vector by the vector's sum. -/
def normalizeList (l : List ℝ) : List ℝ := l.map (fun x => x / l.sum)

/-- numpy `np.min` on a nonempty array, as a fold of binary `min`. -/
def listMin (a : ℝ) (l : List ℝ) : ℝ := l.foldl min a

/-- Stable rank (0-based) of position `i` in `s`: the number of strictly
smaller entries plus the number of equal entries at earlier positions.
Embeds `np.argsort(np.argsort(s))`, reading the tie order of `argsort` as
stable (ties broken by original index); the claims proved below do not
depend on the tie order. -/
def rankAt (s : List ℝ) (i : ℕ) : ℕ :=
  ((List.range s.length).filter (fun j =>
    s.getD j 0 < s.getD i 0 ∨ (s.getD j 0 = s.getD i 0 ∧ j < i))).length

/-- `np.argsort(np.argsort(similarities)) + 1`: the 1-based ranks. -/
def ranks (s : List ℝ) : List ℕ :=
  (List.range s.length).map (fun i => rankAt s i + 1)

/-- `SemanticSimilarityRater.similarities_to_probabilities`
(ssr_model.py, lines 155–203): convert a similarity vector to a
probability vector under the configured method and temperature.
`Except.error` embeds a raised `ValueError`: the unknown-method raise at
line 201, and numpy's raise on `np.min` of a zero-size array. -/
def similarities_to_probabilities (normalize_method : String)
    (temperature : ℝ) (similarities : List ℝ) : Except String (List ℝ) :=
  if normalize_method = "paper" then
    match similarities with
    | [] => .error "zero-size array to reduction operation minimum which has no identity"
    | x :: xs =>
      let shifted := (x :: xs).map (fun v => v - listMin x xs)
      let scaled := shifted.map (fun v => v / temperature)
      .ok (if scaled.sum > 0 then normalizeList scaled
           else List.replicate (x :: xs).length ((1 : ℝ) / (x :: xs).length))
  else if normalize_method = "softmax" then
    let exp_sim := similarities.map (fun v => Real.exp (v / temperature))
    .ok (normalizeList exp_sim)
  else if normalize_method = "linear" then
    match similarities with
    | [] => .error "zero-size array to reduction operation minimum which has no identity"
    | x :: xs =>
      let shifted := (x :: xs).map (fun v => v - listMin x xs)
      .ok (if shifted.sum > 0 then normalizeList shifted
           else List.replicate (x :: xs).length ((1 : ℝ) / (x :: xs).length))
  else if normalize_method = "rank" then
    let rk := (ranks similarities).map (fun (r : ℕ) => (r : ℝ))
    .ok (normalizeList rk)
  else
    .error ("Unknown normalize_method: " ++ normalize_method)

end SSR

namespace SSR

/-! ## Helper lemmas about list minimum, sums and normalization -/

theorem listMin_le {l : List ℝ} :
    ∀ {a y : ℝ}, y ∈ a :: l → listMin a l ≤ y := by
  induction l with
  | nil => intro a y hy; simp at hy; simp [listMin, hy]
  | cons b t ih =>
    intro a y hy
    have hstep : listMin a (b :: t) = listMin (min a b) t := rfl
    rw [hstep]
    rcases List.mem_cons.mp hy with rfl | hy'
    · exact le_trans (ih (List.mem_cons_self _ _)) (min_le_left _ _)
    · rcases List.mem_cons.mp hy' with rfl | hy''
      · exact le_trans (ih (List.mem_cons_self _ _)) (min_le_right _ _)
      · exact ih (List.mem_cons_of_mem _ hy'')

theorem listMin_mem (l : List ℝ) : ∀ (a : ℝ), listMin a l ∈ a :: l := by
  induction l with
  | nil => intro a; simp [listMin]
  | cons b t ih =>
    intro a
    have h : listMin a (b :: t) = listMin (min a b) t := rfl
    rw [h]
    rcases List.mem_cons.mp (ih (min a b)) with h' | h'
    · rcases min_choice a b with hab | hab <;> rw [h', hab]
      · exact List.mem_cons_self _ _
      · exact List.mem_cons_of_mem _ (List.mem_cons_self _ _)
    · exact List.mem_cons_of_mem _ (List.mem_cons_of_mem _ h')

theorem sum_map_div (l : List ℝ) (c : ℝ) :
    (l.map (fun x => x / c)).sum = l.sum / c := by
  induction l with
  | nil => simp
  | cons x t ih => simp [ih, add_div]

theorem normalizeList_sum {l : List ℝ} (h : l.sum ≠ 0) :
    (normalizeList l).sum = 1 := by
  rw [normalizeList, sum_map_div, div_self h]

theorem normalizeList_length (l : List ℝ) :
    (normalizeList l).length = l.length := by
  simp [normalizeList]

theorem normalizeList_nonneg {l : List ℝ} (h0 : ∀ x ∈ l, 0 ≤ x) :
    ∀ y ∈ normalizeList l, 0 ≤ y := by
  intro y hy
  rcases List.mem_map.mp hy with ⟨x, hx, rfl⟩
  have hs : 0 ≤ l.sum := List.sum_nonneg h0
  exact div_nonneg (h0 x hx) hs

theorem sum_nonneg_of_mem {l : List ℝ} (h0 : ∀ x ∈ l, 0 ≤ x) : 0 ≤ l.sum :=
  List.sum_nonneg h0

end SSR

namespace SSR

/-! ## C1: every normalization method yields a probability vector -/

theorem replicate_uniform_sum {n : ℕ} (h : n ≠ 0) :
    (List.replicate n ((1 : ℝ) / n)).sum = 1 := by
  rw [List.sum_replicate, nsmul_eq_mul, mul_one_div, div_self (by exact_mod_cast h)]

theorem shifted_nonneg (x : ℝ) (xs : List ℝ) :
    ∀ v ∈ (x :: xs).map (fun v => v - listMin x xs), 0 ≤ v := by
  intro v hv
  rcases List.mem_map.mp hv with ⟨w, hw, rfl⟩
  have := listMin_le (l := xs) (a := x) (y := w) hw
  linarith

theorem shifted_all_zero {x : ℝ} {xs : List ℝ}
    (hall : ∀ u ∈ x :: xs, ∀ w ∈ x :: xs, u = w) :
    ∀ v ∈ (x :: xs).map (fun v => v - listMin x xs), v = 0 := by
  intro v hv
  rcases List.mem_map.mp hv with ⟨w, hw, rfl⟩
  have hmem := listMin_mem xs x
  have := hall w hw (listMin x xs) hmem
  linarith [this]

end SSR

namespace SSR

/-- C1: for every method tag in {paper, softmax, linear, rank}, every positive
temperature and every nonempty similarity vector, `similarities_to_probabilities`
succeeds and returns a vector of the same length whose entries are all
nonnegative and sum exactly to 1 (hence within 1e-9); in the degenerate
all-equal case the paper and linear methods return the uniform distribution. -/
theorem similarities_to_probabilities_prob_vector
    (method : String) (T : ℝ) (sims : List ℝ)
    (hm : method = "paper" ∨ method = "softmax" ∨ method = "linear" ∨ method = "rank")
    (hT : 0 < T) (hne : sims ≠ []) :
    ∃ probs, similarities_to_probabilities method T sims = Except.ok probs ∧
      probs.length = sims.length ∧ (∀ p ∈ probs, 0 ≤ p) ∧ probs.sum = 1 ∧
      ((method = "paper" ∨ method = "linear") →
        (∀ u ∈ sims, ∀ w ∈ sims, u = w) →
        probs = List.replicate sims.length ((1 : ℝ) / sims.length)) := by
  rcases hm with rfl | rfl | rfl | rfl
  · -- paper
    cases sims with
    | nil => exact absurd rfl hne
    | cons x xs =>
      unfold similarities_to_probabilities
      rw [if_pos rfl]
      dsimp only
      split_ifs with hsum
      · refine ⟨_, rfl, ?_, ?_, ?_, ?_⟩
        · simp [normalizeList_length]
        · refine normalizeList_nonneg ?_
          intro v hv
          rcases List.mem_map.mp hv with ⟨w, hw, rfl⟩
          exact div_nonneg (shifted_nonneg x xs w hw) hT.le
        · exact normalizeList_sum (ne_of_gt hsum)
        · intro _ hall
          exfalso
          have h0 : ∀ v ∈ ((x :: xs).map (fun v => v - listMin x xs)).map
              (fun v => v / T), v = 0 := by
            intro v hv
            rcases List.mem_map.mp hv with ⟨w, hw, rfl⟩
            rw [shifted_all_zero hall w hw, zero_div]
          have := List.sum_eq_zero h0
          linarith
      · refine ⟨_, rfl, ?_, ?_, ?_, ?_⟩
        · simp
        · intro p hp
          rw [List.eq_of_mem_replicate hp]
          positivity
        · exact replicate_uniform_sum (by simp)
        · intro _ _; rfl
  · -- softmax
    unfold similarities_to_probabilities
    rw [if_neg (by decide), if_pos rfl]
    dsimp only
    have hpos : ∀ v ∈ sims.map (fun v => Real.exp (v / T)), 0 < v := by
      intro v hv
      rcases List.mem_map.mp hv with ⟨w, _, rfl⟩
      exact Real.exp_pos _
    have hmapne : sims.map (fun v => Real.exp (v / T)) ≠ [] := by
      simpa using hne
    have hnz : (sims.map (fun v => Real.exp (v / T))).sum ≠ 0 :=
      ne_of_gt (List.sum_pos _ hpos hmapne)
    refine ⟨_, rfl, ?_, ?_, ?_, ?_⟩
    · simp [normalizeList_length]
    · exact normalizeList_nonneg (fun v hv => (hpos v hv).le)
    · exact normalizeList_sum hnz
    · rintro (h | h) <;> exact absurd h (by decide)
  · -- linear
    cases sims with
    | nil => exact absurd rfl hne
    | cons x xs =>
      unfold similarities_to_probabilities
      rw [if_neg (by decide), if_neg (by decide), if_pos rfl]
      dsimp only
      split_ifs with hsum
      · refine ⟨_, rfl, ?_, ?_, ?_, ?_⟩
        · simp [normalizeList_length]
        · exact normalizeList_nonneg (shifted_nonneg x xs)
        · exact normalizeList_sum (ne_of_gt hsum)
        · intro _ hall
          exfalso
          have := List.sum_eq_zero (shifted_all_zero hall)
          linarith
      · refine ⟨_, rfl, ?_, ?_, ?_, ?_⟩
        · simp
        · intro p hp
          rw [List.eq_of_mem_replicate hp]
          positivity
        · exact replicate_uniform_sum (by simp)
        · intro _ _; rfl
  · -- rank
    unfold similarities_to_probabilities
    rw [if_neg (by decide), if_neg (by decide), if_neg (by decide), if_pos rfl]
    dsimp only
    have hpos : ∀ v ∈ (ranks sims).map (fun (r : ℕ) => (r : ℝ)), 0 < v := by
      intro v hv
      rcases List.mem_map.mp hv with ⟨r, hr, rfl⟩
      rcases List.mem_map.mp hr with ⟨i, _, rfl⟩
      exact_mod_cast Nat.succ_pos _
    have hlen : ((ranks sims).map (fun (r : ℕ) => (r : ℝ))).length = sims.length := by
      simp [ranks]
    have hmapne : (ranks sims).map (fun (r : ℕ) => (r : ℝ)) ≠ [] := by
      intro h
      rw [h] at hlen
      exact hne (List.length_eq_zero.mp hlen.symm)
    have hnz : ((ranks sims).map (fun (r : ℕ) => (r : ℝ))).sum ≠ 0 :=
      ne_of_gt (List.sum_pos _ hpos hmapne)
    refine ⟨_, rfl, ?_, ?_, ?_, ?_⟩
    · simp [normalizeList_length, ranks]
    · exact normalizeList_nonneg (fun v hv => (hpos v hv).le)
    · exact normalizeList_sum hnz
    · rintro (h | h) <;> exact absurd h (by decide)

/-- Witness for C1: the paper method on the concrete input `[0.1, 0.3]` at
temperature 1. -/
theorem similarities_to_probabilities_prob_vector_witness :
    ∃ probs, similarities_to_probabilities "paper" 1 [(0.1 : ℝ), 0.3] = Except.ok probs ∧
      probs.length = ([(0.1 : ℝ), 0.3] : List ℝ).length ∧ (∀ p ∈ probs, 0 ≤ p) ∧
      probs.sum = 1 ∧
      (("paper" = "paper" ∨ "paper" = "linear") →
        (∀ u ∈ [(0.1 : ℝ), 0.3], ∀ w ∈ [(0.1 : ℝ), 0.3], u = w) →
        probs = List.replicate ([(0.1 : ℝ), 0.3] : List ℝ).length
          ((1 : ℝ) / ([(0.1 : ℝ), 0.3] : List ℝ).length)) :=
  similarities_to_probabilities_prob_vector "paper" 1 [0.1, 0.3]
    (Or.inl rfl) one_pos (by simp)

end SSR

namespace SSR

/-- C3: `similarities_to_probabilities` fails with the configuration error
(Python's `ValueError("Unknown normalize_method: ...")`, the spec's
`ConfigurationError`) exactly when the configured method is none of paper,
softmax, linear, rank; for a recognized method that error is never produced. -/
theorem similarities_to_probabilities_unknown_method_error
    (method : String) (T : ℝ) (sims : List ℝ) :
    (method ≠ "paper" → method ≠ "softmax" → method ≠ "linear" → method ≠ "rank" →
      similarities_to_probabilities method T sims =
        Except.error ("Unknown normalize_method: " ++ method)) ∧
    ((method = "paper" ∨ method = "softmax" ∨ method = "linear" ∨ method = "rank") →
      similarities_to_probabilities method T sims ≠
        Except.error ("Unknown normalize_method: " ++ method)) := by
  constructor
  · intro h1 h2 h3 h4
    unfold similarities_to_probabilities
    rw [if_neg h1, if_neg h2, if_neg h3, if_neg h4]
  · rintro (rfl | rfl | rfl | rfl)
    · cases sims with
      | nil =>
        unfold similarities_to_probabilities
        rw [if_pos rfl]
        intro h
        exact absurd (Except.error.inj h) (by decide)
      | cons x xs =>
        unfold similarities_to_probabilities
        rw [if_pos rfl]
        dsimp only
        exact fun h => Except.noConfusion h
    · unfold similarities_to_probabilities
      rw [if_neg (by decide), if_pos rfl]
      exact fun h => Except.noConfusion h
    · cases sims with
      | nil =>
        unfold similarities_to_probabilities
        rw [if_neg (by decide), if_neg (by decide), if_pos rfl]
        intro h
        exact absurd (Except.error.inj h) (by decide)
      | cons x xs =>
        unfold similarities_to_probabilities
        rw [if_neg (by decide), if_neg (by decide), if_pos rfl]
        dsimp only
        exact fun h => Except.noConfusion h
    · unfold similarities_to_probabilities
      rw [if_neg (by decide), if_neg (by decide), if_neg (by decide), if_pos rfl]
      exact fun h => Except.noConfusion h

/-- Witness for C3: the unrecognized method tag "zscore" errors on the input
`[0.2, 0.8]`, and the recognized tag "softmax" does not. -/
theorem similarities_to_probabilities_unknown_method_error_witness :
    similarities_to_probabilities "zscore" 1 [(0.2 : ℝ), 0.8] =
      Except.error ("Unknown normalize_method: " ++ "zscore") ∧
    similarities_to_probabilities "softmax" 1 [(0.2 : ℝ), 0.8] ≠
      Except.error ("Unknown normalize_method: " ++ "softmax") :=
  ⟨(similarities_to_probabilities_unknown_method_error "zscore" 1 [0.2, 0.8]).1
      (by decide) (by decide) (by decide) (by decide),
   (similarities_to_probabilities_unknown_method_error "softmax" 1 [0.2, 0.8]).2
      (Or.inr (Or.inl rfl))⟩

end SSR

namespace SSR

/-! ## Data model: responses, questions, rating distributions -/

/-- `llm_client.Response` (llm_client.py, lines 47–56); the fields the rating
and aggregation logic reads (`respondent_profile` and `timestamp` are never
read by the code under verification and are omitted). -/
structure Response where
  respondent_id : String
  question_id : String
  text_response : String
  category : Option String

/-- `survey.Question`, reduced to the two pieces the rating engine reads: its
id and the result of `get_reference_statements()` — the insertion-ordered
mapping scale-point → reference label (survey.py, lines 130–142). -/
structure Question where
  id : String
  scale_labels : List (ℤ × String)

/-- `sorted(scale_labels.keys())` followed by indexing
(`[scale_labels[i] for i in sorted(scale_labels.keys())]`,
ssr_model.py line 222 and line 308). -/
def reference_statements_of (q : Question) : List String :=
  ((q.scale_labels.map (fun e => e.1)).mergeSort (fun a b => a ≤ b)).map
    (fun k => ((q.scale_labels.lookup k).getD ""))

/-- First index of the maximum entry (`np.argmax`). -/
def argmaxIdx (l : List ℝ) : ℕ :=
  match l with
  | [] => 0
  | x :: xs => (x :: xs).findIdx (fun v => decide (v = xs.foldl max x))

/-- `ssr_model.RatingDistribution` (ssr_model.py, lines 25–52). -/
structure RatingDistribution where
  question_id : String
  respondent_id : String
  distribution : List ℝ
  scale_labels : List (ℤ × String)
  text_response : String
  similarities : Option (List ℝ)

/-- `RatingDistribution.expected_value`: `np.sum(scale_points * distribution)`
with `scale_points = list(scale_labels.keys())`. -/
def RatingDistribution.expected_value (d : RatingDistribution) : ℝ :=
  (List.zipWith (fun (k : ℤ) (p : ℝ) => (k : ℝ) * p)
    (d.scale_labels.map (fun e => e.1)) d.distribution).sum

/-- `RatingDistribution.entropy`: `probs = distribution[distribution > 0];
-np.sum(probs * np.log(probs))` — zero bins are filtered out before the
summation. -/
def RatingDistribution.entropy (d : RatingDistribution) : ℝ :=
  -(((d.distribution.filter (fun p => decide ((0 : ℝ) < p))).map
      (fun p => p * Real.log p)).sum)

/-- `RatingDistribution.mode`: `scale_points[np.argmax(distribution)]`. -/
def RatingDistribution.mode (d : RatingDistribution) : ℤ :=
  (d.scale_labels.map (fun e => e.1)).getD (argmaxIdx d.distribution) 0

/-! ## Rating engine: single and batch paths -/

/-- `SemanticSimilarityRater.get_embeddings` under the hypothesis that the
embedding provider returns the same vector for the same text in every call:
an order-preserving, per-text application of the provider `E`. -/
def get_embeddings (E : String → List ℝ) (texts : List String) : List (List ℝ) :=
  texts.map E

/-- `sklearn.metrics.pairwise.cosine_similarity` of two vectors:
dot product over the product of Euclidean norms. -/
def cosineSim (u v : List ℝ) : ℝ :=
  (List.zipWith (fun a b => a * b) u v).sum /
    (Real.sqrt ((u.map (fun x => x ^ 2)).sum) * Real.sqrt ((v.map (fun x => x ^ 2)).sum))

/-- `SemanticSimilarityRater.compute_semantic_similarities`
(ssr_model.py, lines 128–153): embed `[response_text] + reference_statements`
in one call, split, and take cosine similarities of the response embedding
against each reference embedding. -/
def compute_semantic_similarities (E : String → List ℝ)
    (response_text : String) (reference_statements : List String) : List ℝ :=
  let all_texts := response_text :: reference_statements
  let embeddings := get_embeddings E all_texts
  let response_embedding := embeddings.headD []
  let reference_embeddings := embeddings.tail
  reference_embeddings.map (fun ref => cosineSim response_embedding ref)

/-- `SemanticSimilarityRater.rate_response` (ssr_model.py, lines 205–240). -/
def rate_response (E : String → List ℝ) (normalize_method : String)
    (temperature : ℝ) (response : Response) (question : Question) :
    Except String RatingDistribution :=
  let scale_labels := question.scale_labels
  let refs := reference_statements_of question
  let sims := compute_semantic_similarities E response.text_response refs
  (similarities_to_probabilities normalize_method temperature sims).map
    (fun probabilities =>
      { question_id := question.id
        respondent_id := response.respondent_id
        distribution := probabilities
        scale_labels := scale_labels
        text_response := response.text_response
        similarities := some sims })

/-- `SemanticSimilarityRater._rate_responses_batch` (ssr_model.py,
lines 287–347). The reference-embedding cache `_reference_cache` is passed
in as a map from reference-statement lists to cached embedding lists; the
cache write on a miss mutates state the return value does not depend on and
is not modelled. -/
def rate_responses_batch (E : String → List ℝ) (normalize_method : String)
    (temperature : ℝ) (cache : List String → Option (List (List ℝ)))
    (responses : List Response) (question : Question) :
    Except String (List RatingDistribution) :=
  match responses with
  | [] => .ok []
  | r0 :: rest =>
    let rs := r0 :: rest
    let scale_labels := question.scale_labels
    let refs := reference_statements_of question
    let pair :=
      match cache refs with
      | some cached => (get_embeddings E (rs.map (fun (r : Response) => r.text_response)), cached)
      | none =>
        let all := get_embeddings E (rs.map (fun (r : Response) => r.text_response) ++ refs)
        (all.take rs.length, all.drop rs.length)
    let sim_matrix := pair.1.map (fun re => pair.2.map (fun ref => cosineSim re ref))
    (rs.zip sim_matrix).mapM (fun rr =>
      (similarities_to_probabilities normalize_method temperature rr.2).map
        (fun probabilities =>
          { question_id := question.id
            respondent_id := rr.1.respondent_id
            distribution := probabilities
            scale_labels := scale_labels
            text_response := rr.1.text_response
            similarities := some rr.2 }))

end SSR

namespace SSR

theorem mapM_zip_map {α β γ : Type} (f : α → β) (g : α → β → Except String γ) :
    ∀ l : List α, ((l.zip (l.map f)).mapM (fun p => g p.1 p.2)) =
      l.mapM (fun a => g a (f a)) := by
  intro l
  induction l with
  | nil => rfl
  | cons a t ih => simp only [List.map_cons, List.zip_cons_cons, List.mapM_cons, ih]


/-- C2: for every question and every list of responses to it, the batch path
`_rate_responses_batch` returns, response by response, exactly the
`RatingDistribution` (distribution and raw similarity vector included) that
`rate_response` returns for that response alone — given that the embedding
provider is deterministic (modelled by the fixed provider `E`) and that any
cache hit stores the provider's own embeddings of the reference statements. -/
theorem rate_responses_batch_eq_rate_response
    (E : String → List ℝ) (normalize_method : String) (temperature : ℝ)
    (cache : List String → Option (List (List ℝ)))
    (question : Question) (responses : List Response)
    (hcache : ∀ k v, cache k = some v → v = get_embeddings E k) :
    rate_responses_batch E normalize_method temperature cache responses question =
      responses.mapM (fun r => rate_response E normalize_method temperature r question) := by
  cases responses with
  | nil => rfl
  | cons r0 rest =>
    unfold rate_responses_batch
    dsimp only
    have hpair :
        (match cache (reference_statements_of question) with
          | some cached =>
            (get_embeddings E ((r0 :: rest).map (fun (r : Response) => r.text_response)),
              cached)
          | none =>
            let all := get_embeddings E
              ((r0 :: rest).map (fun (r : Response) => r.text_response) ++
                reference_statements_of question)
            (all.take (r0 :: rest).length, all.drop (r0 :: rest).length)) =
          (((r0 :: rest).map (fun (r : Response) => r.text_response)).map E,
            (reference_statements_of question).map E) := by
      cases hc : cache (reference_statements_of question) with
      | some cached =>
        have := hcache _ _ hc
        subst this
        rfl
      | none =>
        dsimp only [get_embeddings]
        rw [List.map_append]
        have hlen : (((r0 :: rest).map (fun (r : Response) => r.text_response)).map E).length
            = (r0 :: rest).length := by simp
        rw [List.take_left' hlen, List.drop_left' hlen]
    rw [hpair]
    dsimp only
    rw [List.map_map, List.map_map]
    exact mapM_zip_map
      (fun (r : Response) =>
        ((reference_statements_of question).map E).map
          (fun ref => cosineSim (E r.text_response) ref))
      (fun (r : Response) (sims : List ℝ) =>
        (similarities_to_probabilities normalize_method temperature sims).map
          (fun probabilities =>
            ({ question_id := question.id
               respondent_id := r.respondent_id
               distribution := probabilities
               scale_labels := question.scale_labels
               text_response := r.text_response
               similarities := some sims } : RatingDistribution)))
      (r0 :: rest)

end SSR

namespace SSR

/-- Witness for C2: a concrete provider, an empty cache, one concrete
response and a yes/no question. -/
theorem rate_responses_batch_eq_rate_response_witness :
    rate_responses_batch (fun s => [(s.length : ℝ)]) "paper" 1 (fun _ => none)
        [{ respondent_id := "r1", question_id := "q1", text_response := "agree",
           category := none }]
        { id := "q1", scale_labels := [(1, "No"), (2, "Yes")] } =
      [({ respondent_id := "r1", question_id := "q1", text_response := "agree",
          category := none } : Response)].mapM
        (fun r => rate_response (fun s => [(s.length : ℝ)]) "paper" 1 r
          { id := "q1", scale_labels := [(1, "No"), (2, "Yes")] }) :=
  rate_responses_batch_eq_rate_response (fun s => [(s.length : ℝ)]) "paper" 1
    (fun _ => none) { id := "q1", scale_labels := [(1, "No"), (2, "Yes")] }
    [{ respondent_id := "r1", question_id := "q1", text_response := "agree",
       category := none }]
    (fun _ _ h => Option.noConfusion h)

/-! ## Aggregator (`main.py`, `aggregate_distributions_by_question`) -/

/-- Python's `int()` on a float: truncation toward zero. -/
def pythonInt (x : ℝ) : ℤ := if 0 ≤ x then ⌊x⌋ else ⌈x⌉

/-- `np.mean` of a list of scalars: sum over length. -/
def listMean (l : List ℝ) : ℝ := l.sum / l.length

/-- `np.mean(arrays, axis=0)`: elementwise mean of equal-length vectors. -/
def meanVecs (ls : List (List ℝ)) : List ℝ :=
  (List.range ((ls.headD []).length)).map
    (fun i => (ls.map (fun l => l.getD i 0)).sum / ls.length)

/-- `np.std(arrays, axis=0)`: elementwise population standard deviation. -/
def stdVecs (ls : List (List ℝ)) : List ℝ :=
  (List.range ((ls.headD []).length)).map
    (fun i => Real.sqrt
      ((ls.map (fun l => (l.getD i 0 - (ls.map (fun l2 => l2.getD i 0)).sum / ls.length) ^ 2)).sum
        / ls.length))

/-- The category resolved for a distribution (main.py, lines 256–261):
linear scan of `responses` for the first response with matching respondent
and question ids; `r.category or "general"` maps `None` and the empty
string to `"general"`. -/
def categoryOf (responses : List Response) (d : RatingDistribution) : String :=
  match responses.find? (fun r =>
      r.respondent_id == d.respondent_id && r.question_id == d.question_id) with
  | some r =>
    match r.category with
    | some c => if c = "" then "general" else c
    | none => "general"
  | none => "general"

/-- The `(category, question_id)` grouping key (main.py, line 263). -/
def keyOf (responses : List Response) (d : RatingDistribution) : String × String :=
  (categoryOf responses d, d.question_id)

/-- First-occurrence deduplication: the insertion order of the grouping
dict's keys. -/
def uniqueKeys : List (String × String) → List (String × String)
  | [] => []
  | k :: ks => k :: (uniqueKeys ks).filter (fun k2 => k2 ≠ k)

/-- One `aggregated[category][question_id]` record (main.py, lines 278–285). -/
structure AggregatedQuestion where
  mean_probabilities : List ℝ
  std_probabilities : List ℝ
  sample_size : ℕ
  mean_mode : ℤ
  mean_expected_value : ℝ
  mean_entropy : ℝ

/-- The statistics computed for one `(category, question_id)` group
(main.py, lines 271–285): note `"mean_mode": int(np.mean([d.mode ...]))`. -/
def aggregateGroup (dists : List RatingDistribution) : AggregatedQuestion :=
  let prob_arrays := dists.map (fun d => d.distribution)
  { mean_probabilities := meanVecs prob_arrays
    std_probabilities := stdVecs prob_arrays
    sample_size := dists.length
    mean_mode := pythonInt (listMean (dists.map (fun d => ((d.mode : ℤ) : ℝ))))
    mean_expected_value := listMean (dists.map (fun d => d.expected_value))
    mean_entropy := listMean (dists.map (fun d => d.entropy)) }

/-- `aggregate_distributions_by_question` (main.py, lines 249–287), with the
nested `category → question_id → record` dict flattened to an association
list keyed by `(category, question_id)` in key-insertion order. -/
def aggregate_distributions_by_question (distributions : List RatingDistribution)
    (responses : List Response) : List ((String × String) × AggregatedQuestion) :=
  (uniqueKeys (distributions.map (keyOf responses))).map
    (fun k => (k, aggregateGroup
      (distributions.filter (fun d => decide (keyOf responses d = k)))))

end SSR

namespace SSR

/-! ## C4/C5: category bucketing and aggregated scalar means -/

/-- Sample: a response with no category tag. -/
def sampleRespNone : Response :=
  { respondent_id := "r1", question_id := "q1", text_response := "agree",
    category := none }

/-- Sample: a second untagged response, same question. -/
def sampleRespNone2 : Response :=
  { respondent_id := "r2", question_id := "q1", text_response := "no",
    category := none }

/-- Sample distribution peaked on scale point 1. -/
def sampleDistA : RatingDistribution :=
  { question_id := "q1", respondent_id := "r1", distribution := [1, 0],
    scale_labels := [(1, "No"), (2, "Yes")], text_response := "agree",
    similarities := none }

/-- Sample distribution peaked on scale point 2. -/
def sampleDistB : RatingDistribution :=
  { question_id := "q1", respondent_id := "r2", distribution := [0, 1],
    scale_labels := [(1, "No"), (2, "Yes")], text_response := "no",
    similarities := none }

theorem mem_uniqueKeys {a : String × String} :
    ∀ {l : List (String × String)}, a ∈ l → a ∈ uniqueKeys l := by
  intro l
  induction l with
  | nil => intro h; simp at h
  | cons k ks ih =>
    intro h
    rcases List.mem_cons.mp h with rfl | h'
    · exact List.mem_cons_self _ _
    · by_cases hak : a = k
      · subst hak; exact List.mem_cons_self _ _
      · refine List.mem_cons_of_mem _ ?_
        refine List.mem_filter.mpr ⟨ih h', ?_⟩
        simpa using hak

theorem aggregate_keys (distributions : List RatingDistribution)
    (responses : List Response) :
    (aggregate_distributions_by_question distributions responses).map
      (fun e => e.1) = uniqueKeys (distributions.map (keyOf responses)) := by
  unfold aggregate_distributions_by_question
  rw [List.map_map]
  exact (List.map_congr_left (fun a _ => rfl)).trans (List.map_id _)

/-- C4 counterexample: for a distribution whose originating response carries
no category tag, the aggregation output's only bucket key is `"general"`,
not `"uncategorized"`. -/
theorem aggregate_uncategorized_counterexample :
    (aggregate_distributions_by_question [sampleDistA] [sampleRespNone]).map
        (fun e => e.1) = [("general", "q1")] ∧
    ("uncategorized", "q1") ∉
      (aggregate_distributions_by_question [sampleDistA] [sampleRespNone]).map
        (fun e => e.1) := by
  have h : (aggregate_distributions_by_question [sampleDistA] [sampleRespNone]).map
      (fun e => e.1) = [("general", "q1")] := by
    rw [aggregate_keys]
    rfl
  exact ⟨h, by rw [h]; decide⟩

/-- C4 (amended): a distribution whose originating response carries no
category tag (or an empty one) is aggregated under the generic bucket named
`"general"`; one whose response carries a nonempty tag `c` is aggregated
under `c`. In both cases the distribution's `(category, question_id)` key is
present in the aggregation output. -/
theorem aggregate_category_bucket
    (distributions : List RatingDistribution) (responses : List Response)
    (d : RatingDistribution) (hd : d ∈ distributions) :
    (categoryOf responses d, d.question_id) ∈
      (aggregate_distributions_by_question distributions responses).map
        (fun e => e.1) ∧
    (∀ r, responses.find? (fun r2 =>
        r2.respondent_id == d.respondent_id && r2.question_id == d.question_id) =
          some r →
      (r.category = none → categoryOf responses d = "general") ∧
      (∀ c, r.category = some c → c ≠ "" → categoryOf responses d = c)) := by
  constructor
  · rw [aggregate_keys]
    exact mem_uniqueKeys (List.mem_map.mpr ⟨d, hd, rfl⟩)
  · intro r hr
    constructor
    · intro hnone
      unfold categoryOf
      rw [hr]
      dsimp only
      rw [hnone]
    · intro c hc hcne
      unfold categoryOf
      rw [hr]
      dsimp only
      rw [hc]
      simp [hcne]

/-- Witness for the amended C4 theorem at concrete inputs. -/
theorem aggregate_category_bucket_witness :
    (categoryOf [sampleRespNone] sampleDistA, sampleDistA.question_id) ∈
      (aggregate_distributions_by_question [sampleDistA] [sampleRespNone]).map
        (fun e => e.1) ∧
    (∀ r, [sampleRespNone].find? (fun r2 =>
        r2.respondent_id == sampleDistA.respondent_id &&
          r2.question_id == sampleDistA.question_id) = some r →
      (r.category = none → categoryOf [sampleRespNone] sampleDistA = "general") ∧
      (∀ c, r.category = some c → c ≠ "" →
        categoryOf [sampleRespNone] sampleDistA = c)) :=
  aggregate_category_bucket [sampleDistA] [sampleRespNone] sampleDistA
    (List.mem_cons_self _ _)

end SSR

namespace SSR

theorem sampleDistA_mode : sampleDistA.mode = 1 := by
  unfold RatingDistribution.mode argmaxIdx sampleDistA
  dsimp only
  have hm : List.foldl max 1 [(0 : ℝ)] = 1 := by
    simp
  rw [hm, List.findIdx_cons]
  have h1 : (decide ((1 : ℝ) = 1)) = true := decide_eq_true rfl
  rw [h1]
  rfl

theorem sampleDistB_mode : sampleDistB.mode = 2 := by
  unfold RatingDistribution.mode argmaxIdx sampleDistB
  dsimp only
  have hm : List.foldl max 0 [(1 : ℝ)] = 1 := by
    simp
  rw [hm, List.findIdx_cons]
  have h0 : (decide ((0 : ℝ) = 1)) = false := decide_eq_false (by norm_num)
  rw [h0, List.findIdx_cons]
  have h1 : (decide ((1 : ℝ) = 1)) = true := decide_eq_true rfl
  rw [h1]
  rfl

theorem lookup_map_pair {β : Type} (f : String × String → β) (k : String × String) :
    ∀ (keys : List (String × String)) (v : β),
      (keys.map (fun k2 => (k2, f k2))).lookup k = some v → v = f k := by
  intro keys
  induction keys with
  | nil => intro v h; simp [List.lookup] at h
  | cons k0 t ih =>
    intro v h
    rw [List.map_cons, List.lookup_cons] at h
    cases hbeq : (k == k0) with
    | true =>
      rw [hbeq] at h
      dsimp only at h
      have hk : k = k0 := eq_of_beq hbeq
      rw [hk, (Option.some.injEq _ _).mp h]
    | false =>
      rw [hbeq] at h
      exact ih v h

/-- C5 (amended): for every group aggregated under key `k`, the reported
`mean_expected_value` and `mean_entropy` are the exact arithmetic means of
the members' scalars, while `mean_mode` is the arithmetic mean of the
members' modes truncated toward zero to an integer by Python's `int()` —
not the exact (float-valued) mean the claim stated. -/
theorem aggregate_scalar_means
    (distributions : List RatingDistribution) (responses : List Response)
    (k : String × String) (agg : AggregatedQuestion)
    (hlook : (aggregate_distributions_by_question distributions responses).lookup
      k = some agg) :
    agg.mean_mode = pythonInt (listMean ((distributions.filter
        (fun d => decide (keyOf responses d = k))).map
        (fun d => ((d.mode : ℤ) : ℝ)))) ∧
    agg.mean_expected_value = listMean ((distributions.filter
        (fun d => decide (keyOf responses d = k))).map
        (fun d => d.expected_value)) ∧
    agg.mean_entropy = listMean ((distributions.filter
        (fun d => decide (keyOf responses d = k))).map (fun d => d.entropy)) := by
  have hv := lookup_map_pair
    (fun k2 => aggregateGroup (distributions.filter
      (fun d => decide (keyOf responses d = k2))))
    k (uniqueKeys (distributions.map (keyOf responses))) agg hlook
  rw [hv]
  exact ⟨rfl, rfl, rfl⟩

/-- C5 counterexample: two member distributions with modes 1 and 2; the
aggregation reports `mean_mode = 1` (the truncated integer), while the exact
arithmetic mean of the mode values is `3/2`. -/
theorem aggregate_mean_mode_counterexample :
    ((aggregate_distributions_by_question [sampleDistA, sampleDistB]
        [sampleRespNone, sampleRespNone2]).lookup ("general", "q1")).map
      (fun a => ((a.mean_mode : ℤ) : ℝ)) = some 1 ∧
    listMean ([sampleDistA, sampleDistB].map (fun d => ((d.mode : ℤ) : ℝ))) = 3 / 2 ∧
    (1 : ℝ) ≠ 3 / 2 := by
  have hmean : listMean ([sampleDistA, sampleDistB].map
      (fun d => ((d.mode : ℤ) : ℝ))) = 3 / 2 := by
    rw [List.map_cons, List.map_cons, List.map_nil, sampleDistA_mode, sampleDistB_mode]
    unfold listMean
    norm_num
  have hagg : (aggregate_distributions_by_question [sampleDistA, sampleDistB]
      [sampleRespNone, sampleRespNone2]).lookup ("general", "q1") =
        some (aggregateGroup [sampleDistA, sampleDistB]) := rfl
  refine ⟨?_, hmean, by norm_num⟩
  rw [hagg, Option.map_some']
  have hmm : (aggregateGroup [sampleDistA, sampleDistB]).mean_mode =
      pythonInt (listMean ([sampleDistA, sampleDistB].map
        (fun d => ((d.mode : ℤ) : ℝ)))) := rfl
  rw [hmm, hmean]
  unfold pythonInt
  rw [if_pos (by norm_num)]
  norm_num

/-- Witness for the amended C5 theorem at concrete inputs. -/
theorem aggregate_scalar_means_witness :
    (aggregateGroup [sampleDistA, sampleDistB]).mean_mode =
      pythonInt (listMean (([sampleDistA, sampleDistB].filter
        (fun d => decide (keyOf [sampleRespNone, sampleRespNone2] d =
          ("general", "q1")))).map (fun d => ((d.mode : ℤ) : ℝ)))) ∧
    (aggregateGroup [sampleDistA, sampleDistB]).mean_expected_value =
      listMean (([sampleDistA, sampleDistB].filter
        (fun d => decide (keyOf [sampleRespNone, sampleRespNone2] d =
          ("general", "q1")))).map (fun d => d.expected_value)) ∧
    (aggregateGroup [sampleDistA, sampleDistB]).mean_entropy =
      listMean (([sampleDistA, sampleDistB].filter
        (fun d => decide (keyOf [sampleRespNone, sampleRespNone2] d =
          ("general", "q1")))).map (fun d => d.entropy)) :=
  aggregate_scalar_means [sampleDistA, sampleDistB]
    [sampleRespNone, sampleRespNone2] ("general", "q1")
    (aggregateGroup [sampleDistA, sampleDistB]) rfl

end SSR

namespace SSR

/-! ## C8: entropy excludes zero bins -/

theorem filter_pos_mul_log (l : List ℝ) (h0 : ∀ p ∈ l, 0 ≤ p) :
    ((l.filter (fun p => decide ((0 : ℝ) < p))).map (fun p => p * Real.log p)).sum
      = (l.map (fun p => p * Real.log p)).sum := by
  induction l with
  | nil => simp
  | cons x t ih =>
    have hx := h0 x (List.mem_cons_self _ _)
    have ht : ∀ p ∈ t, 0 ≤ p := fun p hp => h0 p (List.mem_cons_of_mem _ hp)
    rw [List.filter_cons]
    by_cases hpos : (0 : ℝ) < x
    · rw [if_pos (by simpa using hpos)]
      simp only [List.map_cons, List.sum_cons, ih ht]
    · rw [if_neg (by simpa using hpos)]
      have hx0 : x = 0 := le_antisymm (not_lt.mp hpos) hx
      simp only [List.map_cons, List.sum_cons, ih ht, hx0, zero_mul, zero_add]

/-- C8: for a distribution with nonnegative entries, the embedded
`RatingDistribution.entropy` is minus the sum of `p * log p` over the
strictly positive entries only (zero bins are excluded by the filter, as in
the code), and — because excluded zero bins would contribute `0 * log 0 = 0`
in exact real arithmetic — it also equals minus the sum over all entries.
The value is a real number of the embedding, so it is finite by type. -/
theorem entropy_excludes_zero_bins (d : RatingDistribution)
    (h0 : ∀ p ∈ d.distribution, 0 ≤ p) :
    d.entropy = -(((d.distribution.filter (fun p => decide ((0 : ℝ) < p))).map
        (fun p => p * Real.log p)).sum) ∧
    d.entropy = -((d.distribution.map (fun p => p * Real.log p)).sum) := by
  refine ⟨rfl, ?_⟩
  unfold RatingDistribution.entropy
  rw [filter_pos_mul_log d.distribution h0]

/-- Witness for C8: a concrete distribution with a zero bin. -/
theorem entropy_excludes_zero_bins_witness :
    sampleDistA.entropy = -((([(1 : ℝ), 0].filter
        (fun p => decide ((0 : ℝ) < p))).map (fun p => p * Real.log p)).sum) ∧
    sampleDistA.entropy = -(([(1 : ℝ), 0].map (fun p => p * Real.log p)).sum) :=
  entropy_excludes_zero_bins sampleDistA (by
    intro p hp
    have h : p ∈ [(1 : ℝ), 0] := hp
    simp at h
    rcases h with rfl | rfl <;> norm_num)

/-! ## C9: aggregated mean probabilities sum to one -/

theorem sum_map_add_pointwise {β : Type} (l : List β) (f g : β → ℝ) :
    (l.map (fun b => f b + g b)).sum = (l.map f).sum + (l.map g).sum := by
  induction l with
  | nil => simp
  | cons b t ih =>
    simp only [List.map_cons, List.sum_cons, ih]
    ring

theorem list_sum_comm {α β : Type} (l1 : List α) (l2 : List β) (g : α → β → ℝ) :
    (l1.map (fun a => (l2.map (fun b => g a b)).sum)).sum =
      (l2.map (fun b => (l1.map (fun a => g a b)).sum)).sum := by
  induction l1 with
  | nil => simp
  | cons a t ih =>
    rw [List.map_cons, List.sum_cons, ih]
    exact (sum_map_add_pointwise l2 (fun b => g a b)
      (fun b => (t.map (fun a2 => g a2 b)).sum)).symm

theorem sum_range_getD (l : List ℝ) :
    ((List.range l.length).map (fun i => l.getD i 0)).sum = l.sum := by
  induction l with
  | nil => simp
  | cons x t ih =>
    rw [List.length_cons, List.range_succ_eq_map, List.map_cons, List.map_map]
    have hc : ((fun i => (x :: t).getD i 0) ∘ Nat.succ) = (fun i => t.getD i 0) := by
      funext i; rfl
    rw [hc, List.sum_cons, ih, List.sum_cons]
    rfl

theorem sum_map_one (ls : List (List ℝ)) : (ls.map (fun _ => (1 : ℝ))).sum = (ls.length : ℝ) := by
  induction ls with
  | nil => simp
  | cons l0 t ih =>
    simp only [List.map_cons, List.sum_cons, ih, List.length_cons]
    push_cast
    ring

theorem meanVecs_sum (ls : List (List ℝ)) (n : ℕ) (hne : ls ≠ [])
    (hlen : ∀ l ∈ ls, l.length = n) (hsum : ∀ l ∈ ls, l.sum = 1) :
    (meanVecs ls).sum = 1 := by
  have hn0 : (ls.headD []).length = n := by
    cases ls with
    | nil => exact absurd rfl hne
    | cons l0 t => exact hlen l0 (List.mem_cons_self _ _)
  unfold meanVecs
  rw [hn0]
  have hcomp : (fun i => (ls.map (fun l => l.getD i 0)).sum / (ls.length : ℝ)) =
      (fun x => x / (ls.length : ℝ)) ∘ (fun i => (ls.map (fun l => l.getD i 0)).sum) := rfl
  rw [hcomp, ← List.map_map, sum_map_div, list_sum_comm]
  have hinner : (ls.map (fun l =>
      ((List.range n).map (fun i => l.getD i 0)).sum)) = ls.map (fun _ => (1 : ℝ)) := by
    refine List.map_congr_left ?_
    intro l hl
    rw [← hlen l hl, sum_range_getD, hsum l hl]
  rw [hinner]
  rw [sum_map_one, div_self]
  intro h
  apply hne
  have : ls.length = 0 := by exact_mod_cast h
  exact List.length_eq_zero.mp this

/-- C9: for every nonempty group of member distributions of equal length
each summing exactly to 1, the aggregated `mean_probabilities` (elementwise
arithmetic mean, no renormalization) also sums exactly to 1. -/
theorem aggregate_mean_probabilities_sum
    (distributions : List RatingDistribution) (responses : List Response)
    (k : String × String) (agg : AggregatedQuestion) (n : ℕ)
    (hlook : (aggregate_distributions_by_question distributions responses).lookup
      k = some agg)
    (hne : distributions.filter (fun d => decide (keyOf responses d = k)) ≠ [])
    (hlen : ∀ d ∈ distributions.filter (fun d => decide (keyOf responses d = k)),
      d.distribution.length = n)
    (hsum : ∀ d ∈ distributions.filter (fun d => decide (keyOf responses d = k)),
      d.distribution.sum = 1) :
    agg.mean_probabilities.sum = 1 := by
  have hv := lookup_map_pair
    (fun k2 => aggregateGroup (distributions.filter
      (fun d => decide (keyOf responses d = k2))))
    k (uniqueKeys (distributions.map (keyOf responses))) agg hlook
  rw [hv]
  refine meanVecs_sum _ n ?_ ?_ ?_
  · intro h
    exact hne (List.map_eq_nil_iff.mp h)
  · intro l hl
    rcases List.mem_map.mp hl with ⟨d, hd, rfl⟩
    exact hlen d hd
  · intro l hl
    rcases List.mem_map.mp hl with ⟨d, hd, rfl⟩
    exact hsum d hd

/-- Witness for C9 at the concrete two-member group. -/
theorem aggregate_mean_probabilities_sum_witness :
    (aggregateGroup [sampleDistA, sampleDistB]).mean_probabilities.sum = 1 := by
  have hfilter : [sampleDistA, sampleDistB].filter
      (fun d => decide (keyOf [sampleRespNone, sampleRespNone2] d =
        ("general", "q1"))) = [sampleDistA, sampleDistB] := rfl
  refine aggregate_mean_probabilities_sum [sampleDistA, sampleDistB]
    [sampleRespNone, sampleRespNone2] ("general", "q1")
    (aggregateGroup [sampleDistA, sampleDistB]) 2 rfl ?_ ?_ ?_
  · rw [hfilter]
    exact List.cons_ne_nil _ _
  · rw [hfilter]
    intro d hd
    rcases List.mem_cons.mp hd with rfl | hd2
    · rfl
    · rcases List.mem_cons.mp hd2 with rfl | h3
      · rfl
      · simp at h3
  · rw [hfilter]
    intro d hd
    rcases List.mem_cons.mp hd with rfl | hd2
    · show ([(1 : ℝ), 0]).sum = 1
      norm_num
    · rcases List.mem_cons.mp hd2 with rfl | h3
      · show ([(0 : ℝ), 1]).sum = 1
        norm_num
      · simp at h3

end SSR

namespace SSR

/-! ## Ground truth metrics (`ground_truth_metrics.py`) -/

/-- `kl_divergence(p, q, epsilon=1e-10)` (ground_truth_metrics.py,
lines 15–34): add epsilon to both vectors, renormalize each to sum to 1,
return `Σ p·log(p/q)`. -/
def kl_divergence (p q : List ℝ) : ℝ :=
  let p2 := p.map (fun x => x + 1e-10)
  let q2 := q.map (fun x => x + 1e-10)
  let pn := normalizeList p2
  let qn := normalizeList q2
  (List.zipWith (fun a b => a * Real.log (a / b)) pn qn).sum

/-- `scipy.special.rel_entr` pointwise: `x * log(x / y)` for positive `x`,
`0` when `x = 0` (in every use below `y` is positive whenever `x` is). -/
def relEntr (x y : ℝ) : ℝ := if 0 < x then x * Real.log (x / y) else 0

/-- `scipy.spatial.distance.jensenshannon` with the default natural-log
base: normalize both inputs, form the midpoint, and take the square root of
the symmetrized, halved relative entropy. -/
def jensenshannon (p q : List ℝ) : ℝ :=
  let pn := normalizeList p
  let qn := normalizeList q
  let m := List.zipWith (fun a b => (a + b) / 2) pn qn
  Real.sqrt (((List.zipWith relEntr pn m).sum + (List.zipWith relEntr qn m).sum) / 2)

/-- `js_divergence(p, q)` (ground_truth_metrics.py, lines 37–55): normalize
both then delegate to scipy's `jensenshannon`. -/
def js_divergence (p q : List ℝ) : ℝ :=
  jensenshannon (normalizeList p) (normalizeList q)

/-- Running prefix sums: the cumulative distribution values at positions
`0 .. n-1`. -/
def prefixSums (l : List ℝ) : List ℝ :=
  (List.range l.length).map (fun i => (l.take (i + 1)).sum)

/-- `wasserstein_dist(p, q)` (ground_truth_metrics.py, lines 58–76):
`scipy.stats.wasserstein_distance` over positions `0 .. n-1` weighted by `p`
and `q` — after scipy's internal weight normalization, the sum over the unit
grid of the absolute CDF differences (the trailing grid point contributes
zero for equal total masses). -/
def wasserstein_dist (p q : List ℝ) : ℝ :=
  let pn := normalizeList p
  let qn := normalizeList q
  (List.zipWith (fun a b => |a - b|) (prefixSums pn) (prefixSums qn)).sum

/-- `mean_absolute_error(p, q)` (ground_truth_metrics.py, lines 112–130):
normalize both, return `np.mean(np.abs(p - q))`. -/
def mean_absolute_error (p q : List ℝ) : ℝ :=
  let pn := normalizeList p
  let qn := normalizeList q
  (List.zipWith (fun a b => |a - b|) pn qn).sum / pn.length

/-- Result record of `chi_squared_test`. -/
structure ChiSquaredOutcome where
  chi_squared : ℝ
  p_value : ℝ
  significant : Bool

/-- `chi_squared_test(p, q, sample_size)` (ground_truth_metrics.py,
lines 79–109): normalize both, scale to pseudo-counts, compute the
chi-squared statistic `Σ (obs−exp)²/exp`; `scipy.stats.chisquare`'s p-value
is a function of the statistic and the degrees of freedom only, supplied
here as the abstract `pValueFn`. -/
def chi_squared_test (pValueFn : ℝ → ℕ → ℝ) (p q : List ℝ)
    (sample_size : ℕ) : ChiSquaredOutcome :=
  let pn := normalizeList p
  let qn := normalizeList q
  let expected := pn.map (fun x => x * (sample_size : ℝ))
  let observed := qn.map (fun x => x * (sample_size : ℝ))
  let chi2 := (List.zipWith (fun o e => (o - e) ^ 2 / e) observed expected).sum
  let pv := pValueFn chi2 (observed.length - 1)
  { chi_squared := chi2, p_value := pv, significant := decide (pv < 0.05) }

/-- The metrics record returned by `compare_distributions`. -/
structure ComparisonMetrics where
  kl_divergence : ℝ
  js_divergence : ℝ
  wasserstein_distance : ℝ
  chi_squared : ℝ
  chi_squared_p_value : ℝ
  significant_difference : Bool
  mean_absolute_error : ℝ

/-- `compare_distributions(ground_truth_dist, test_dist, sample_size)`
(ground_truth_metrics.py, lines 133–166): normalize both inputs, then
bundle all metrics. -/
def compare_distributions (pValueFn : ℝ → ℕ → ℝ)
    (ground_truth_dist test_dist : List ℝ) (sample_size : ℕ) : ComparisonMetrics :=
  let gt := normalizeList ground_truth_dist
  let test := normalizeList test_dist
  let chi2_result := chi_squared_test pValueFn gt test sample_size
  { kl_divergence := kl_divergence gt test
    js_divergence := js_divergence gt test
    wasserstein_distance := wasserstein_dist gt test
    chi_squared := chi2_result.chi_squared
    chi_squared_p_value := chi2_result.p_value
    significant_difference := chi2_result.significant
    mean_absolute_error := mean_absolute_error gt test }

/-- A valid probability vector in the sense of the spec: nonnegative
entries and a strictly positive sum. -/
def validProbVec (p : List ℝ) : Prop := (∀ x ∈ p, 0 ≤ x) ∧ 0 < p.sum

end SSR

namespace SSR

theorem kl_self (p : List ℝ) : kl_divergence p p = 0 := by
  unfold kl_divergence
  dsimp only
  rw [List.zipWith_same]
  apply List.sum_eq_zero
  intro x hx
  rcases List.mem_map.mp hx with ⟨a, _, rfl⟩
  rcases eq_or_ne a 0 with rfl | h
  · simp
  · rw [div_self h, Real.log_one, mul_zero]

theorem relEntr_self (a : ℝ) : relEntr a a = 0 := by
  unfold relEntr
  split_ifs with h
  · rw [div_self (ne_of_gt h), Real.log_one, mul_zero]
  · rfl

theorem js_self (p : List ℝ) : js_divergence p p = 0 := by
  unfold js_divergence jensenshannon
  have hm : List.zipWith (fun a b => (a + b) / 2)
      (normalizeList (normalizeList p)) (normalizeList (normalizeList p)) =
        normalizeList (normalizeList p) := by
    rw [List.zipWith_same]
    exact (List.map_congr_left (fun a _ => by ring)).trans
      (List.map_id' (normalizeList (normalizeList p)))
  dsimp only
  rw [hm, List.zipWith_same]
  have hz : (normalizeList (normalizeList p)).map (fun a => relEntr a a) =
      (normalizeList (normalizeList p)).map (fun _ => (0 : ℝ)) :=
    List.map_congr_left (fun a _ => relEntr_self a)
  rw [hz]
  simp

theorem wasserstein_self (p : List ℝ) : wasserstein_dist p p = 0 := by
  unfold wasserstein_dist
  dsimp only
  rw [List.zipWith_same]
  apply List.sum_eq_zero
  intro x hx
  rcases List.mem_map.mp hx with ⟨a, _, rfl⟩
  simp

theorem mae_self (p : List ℝ) : mean_absolute_error p p = 0 := by
  unfold mean_absolute_error
  dsimp only
  rw [List.zipWith_same]
  have hz : (normalizeList p).map (fun a => |a - a|) =
      (normalizeList p).map (fun _ => (0 : ℝ)) :=
    List.map_congr_left (fun a _ => by simp)
  rw [hz]
  simp

theorem gibbs_aux : ∀ (l1 l2 : List ℝ), l1.length = l2.length →
    (∀ x ∈ l1, 0 < x) → (∀ x ∈ l2, 0 < x) →
    l1.sum - l2.sum ≤ (List.zipWith (fun a b => a * Real.log (a / b)) l1 l2).sum := by
  intro l1
  induction l1 with
  | nil =>
    intro l2 hlen _ _
    have h2 : l2 = [] := List.length_eq_zero.mp hlen.symm
    subst h2
    simp
  | cons a t ih =>
    intro l2 hlen h1 h2
    cases l2 with
    | nil => simp at hlen
    | cons b s =>
      have ha : 0 < a := h1 a (List.mem_cons_self _ _)
      have hb : 0 < b := h2 b (List.mem_cons_self _ _)
      have hlen2 : t.length = s.length := by simpa using hlen
      have iht := ih s hlen2 (fun x hx => h1 x (List.mem_cons_of_mem _ hx))
        (fun x hx => h2 x (List.mem_cons_of_mem _ hx))
      have hstep : a - b ≤ a * Real.log (a / b) := by
        have hlog : Real.log (b / a) ≤ b / a - 1 :=
          Real.log_le_sub_one_of_pos (div_pos hb ha)
        have heq : Real.log (a / b) = -Real.log (b / a) := by
          rw [← Real.log_inv, inv_div]
        rw [heq, mul_neg]
        have hmul : a * Real.log (b / a) ≤ a * (b / a - 1) :=
          mul_le_mul_of_nonneg_left hlog ha.le
        have harith : a * (b / a - 1) = b - a := by field_simp
        linarith
      rw [List.zipWith_cons_cons, List.sum_cons, List.sum_cons, List.sum_cons]
      linarith

theorem kl_nonneg_valid (p q : List ℝ) (hp : validProbVec p) (hq : validProbVec q)
    (hlen : p.length = q.length) : 0 ≤ kl_divergence p q := by
  have hpne : p ≠ [] := by
    intro h
    rw [h] at hp
    simpa using hp.2
  have hqne : q ≠ [] := by
    intro h
    rw [h] at hq
    simpa using hq.2
  have heps : (0 : ℝ) < 1e-10 := by norm_num
  have hp2pos : ∀ x ∈ p.map (fun x => x + 1e-10), 0 < x := by
    intro x hx
    rcases List.mem_map.mp hx with ⟨a, ha, rfl⟩
    have := hp.1 a ha
    linarith
  have hq2pos : ∀ x ∈ q.map (fun x => x + 1e-10), 0 < x := by
    intro x hx
    rcases List.mem_map.mp hx with ⟨a, ha, rfl⟩
    have := hq.1 a ha
    linarith
  have hp2sum : 0 < (p.map (fun x => x + 1e-10)).sum :=
    List.sum_pos _ hp2pos (by simpa using hpne)
  have hq2sum : 0 < (q.map (fun x => x + 1e-10)).sum :=
    List.sum_pos _ hq2pos (by simpa using hqne)
  have hpn : ∀ x ∈ normalizeList (p.map (fun x => x + 1e-10)), 0 < x := by
    intro x hx
    rcases List.mem_map.mp hx with ⟨a, ha, rfl⟩
    exact div_pos (hp2pos a ha) hp2sum
  have hqn : ∀ x ∈ normalizeList (q.map (fun x => x + 1e-10)), 0 < x := by
    intro x hx
    rcases List.mem_map.mp hx with ⟨a, ha, rfl⟩
    exact div_pos (hq2pos a ha) hq2sum
  have hpn1 : (normalizeList (p.map (fun x => x + 1e-10))).sum = 1 :=
    normalizeList_sum (ne_of_gt hp2sum)
  have hqn1 : (normalizeList (q.map (fun x => x + 1e-10))).sum = 1 :=
    normalizeList_sum (ne_of_gt hq2sum)
  have hlen2 : (normalizeList (p.map (fun x => x + 1e-10))).length =
      (normalizeList (q.map (fun x => x + 1e-10))).length := by
    rw [normalizeList_length, normalizeList_length, List.length_map,
      List.length_map, hlen]
  have hgibbs := gibbs_aux _ _ hlen2 hpn hqn
  rw [hpn1, hqn1] at hgibbs
  unfold kl_divergence
  dsimp only
  linarith

theorem js_symm_all (p q : List ℝ) : js_divergence p q = js_divergence q p := by
  unfold js_divergence jensenshannon
  dsimp only
  rw [List.zipWith_comm_of_comm (fun a b => (a + b) / 2) (fun x y => by ring)
    (normalizeList (normalizeList p)) (normalizeList (normalizeList q)), add_comm]

end SSR

namespace SSR

theorem kl_asym_lower : (3 : ℝ) / 2 < kl_divergence [1 / 2, 1 / 2] [1, 0] := by
  have hred : kl_divergence [1 / 2, 1 / 2] [1, 0] =
      1 / 2 * Real.log (5000000001 / 10000000001) +
        1 / 2 * Real.log 5000000001 := by
    unfold kl_divergence normalizeList
    norm_num
  rw [hred]
  have he1 : (2.7182818283 : ℝ) < Real.exp 1 := Real.exp_one_gt_d9
  have hc1 : Real.exp (-1) < (5000000001 : ℝ) / 10000000001 := by
    rw [Real.exp_neg]
    have h2 : (Real.exp 1)⁻¹ < ((2.7182818283 : ℝ))⁻¹ :=
      inv_lt_inv_of_lt (by norm_num) he1
    have h3 : ((2.7182818283 : ℝ))⁻¹ < (5000000001 : ℝ) / 10000000001 := by
      norm_num
    exact lt_trans h2 h3
  have hlog1 : (-1 : ℝ) < Real.log ((5000000001 : ℝ) / 10000000001) := by
    have h := Real.log_lt_log (Real.exp_pos (-1)) hc1
    rwa [Real.log_exp] at h
  have hc2 : Real.exp 4 < (5000000001 : ℝ) := by
    have he : Real.exp 1 < 2.7182818286 := Real.exp_one_lt_d9
    have hp : (0 : ℝ) < Real.exp 1 := Real.exp_pos 1
    have h4 : Real.exp 4 = Real.exp 1 * Real.exp 1 * Real.exp 1 * Real.exp 1 := by
      rw [show (4 : ℝ) = 1 + 1 + 1 + 1 by norm_num, Real.exp_add, Real.exp_add,
        Real.exp_add]
    rw [h4]
    have h2 : Real.exp 1 * Real.exp 1 < 2.7182818286 * 2.7182818286 :=
      mul_lt_mul'' he he hp.le hp.le
    have h4' : Real.exp 1 * Real.exp 1 * (Real.exp 1 * Real.exp 1) <
        2.7182818286 * 2.7182818286 * (2.7182818286 * 2.7182818286) :=
      mul_lt_mul'' h2 h2 (by positivity) (by positivity)
    have hnum : (2.7182818286 : ℝ) * 2.7182818286 * (2.7182818286 * 2.7182818286) <
        5000000001 := by norm_num
    calc Real.exp 1 * Real.exp 1 * Real.exp 1 * Real.exp 1
        = Real.exp 1 * Real.exp 1 * (Real.exp 1 * Real.exp 1) := by ring
      _ < 2.7182818286 * 2.7182818286 * (2.7182818286 * 2.7182818286) := h4'
      _ < 5000000001 := hnum
  have hlog2 : (4 : ℝ) < Real.log 5000000001 := by
    have h := Real.log_lt_log (Real.exp_pos 4) hc2
    rwa [Real.log_exp] at h
  linarith

theorem kl_asym_upper : kl_divergence [1, 0] [1 / 2, 1 / 2] < 1 := by
  have hred : kl_divergence [1, 0] [1 / 2, 1 / 2] =
      10000000001 / 10000000002 * Real.log (10000000001 / 5000000001) +
        1 / 10000000002 * Real.log (1 / 5000000001) := by
    unfold kl_divergence normalizeList
    norm_num
  rw [hred]
  have hy1pos : (0 : ℝ) < 10000000001 / 5000000001 := by norm_num
  have hy1lt : (10000000001 : ℝ) / 5000000001 < Real.exp 1 :=
    lt_trans (by norm_num) Real.exp_one_gt_d9
  have hlogy1lt : Real.log ((10000000001 : ℝ) / 5000000001) < 1 := by
    have h := Real.log_lt_log hy1pos hy1lt
    rwa [Real.log_exp] at h
  have ht2 : (1 : ℝ) / 10000000002 * Real.log (1 / 5000000001) < 0 :=
    mul_neg_of_pos_of_neg (by norm_num)
      (Real.log_neg (by norm_num) (by norm_num))
  have hB0 : (0 : ℝ) < 10000000001 / 10000000002 := by norm_num
  have hB1 : (10000000001 : ℝ) / 10000000002 < 1 := by norm_num
  have hBL : 10000000001 / 10000000002 * Real.log ((10000000001 : ℝ) / 5000000001) <
      10000000001 / 10000000002 * 1 := mul_lt_mul_of_pos_left hlogy1lt hB0
  linarith

/-- C6: for every valid probability vector p, all four distance metrics
vanish at (p, p); KL divergence is nonnegative on valid pairs of equal
length; JS divergence is symmetric; and KL divergence is not symmetric —
witnessed by p = [1/2, 1/2], q = [1, 0]. -/
theorem metrics_identity_nonneg_symm_asym :
    (∀ p : List ℝ, validProbVec p →
      kl_divergence p p = 0 ∧ js_divergence p p = 0 ∧
      wasserstein_dist p p = 0 ∧ mean_absolute_error p p = 0) ∧
    (∀ p q : List ℝ, validProbVec p → validProbVec q → p.length = q.length →
      0 ≤ kl_divergence p q) ∧
    (∀ p q : List ℝ, validProbVec p → validProbVec q → p.length = q.length →
      js_divergence p q = js_divergence q p) ∧
    (∃ p q : List ℝ, validProbVec p ∧ validProbVec q ∧ p.length = q.length ∧
      kl_divergence p q ≠ kl_divergence q p) := by
  refine ⟨fun p _ => ⟨kl_self p, js_self p, wasserstein_self p, mae_self p⟩,
    fun p q hp hq hlen => kl_nonneg_valid p q hp hq hlen,
    fun p q _ _ _ => js_symm_all p q,
    ⟨[1 / 2, 1 / 2], [1, 0], ⟨?_, ?_⟩, ⟨?_, ?_⟩, rfl, ?_⟩⟩
  · intro x hx
    simp at hx
    rcases hx with rfl | rfl <;> norm_num
  · norm_num
  · intro x hx
    simp at hx
    rcases hx with rfl | rfl <;> norm_num
  · norm_num
  · intro heq
    have h1 := kl_asym_lower
    have h2 := kl_asym_upper
    rw [heq] at h1
    linarith

/-- Witness for C6 at the concrete vector [1/2, 1/2] and the pair
([1/2, 1/2], [1, 0]). -/
theorem metrics_identity_nonneg_symm_asym_witness :
    kl_divergence [(1 : ℝ) / 2, 1 / 2] [1 / 2, 1 / 2] = 0 ∧
    0 ≤ kl_divergence [(1 : ℝ) / 2, 1 / 2] [1, 0] ∧
    js_divergence [(1 : ℝ) / 2, 1 / 2] [1, 0] =
      js_divergence [1, 0] [(1 : ℝ) / 2, 1 / 2] := by
  have hvp : validProbVec [(1 : ℝ) / 2, 1 / 2] := by
    constructor
    · intro x hx
      simp at hx
      rcases hx with rfl | rfl <;> norm_num
    · norm_num
  have hvq : validProbVec [(1 : ℝ), 0] := by
    constructor
    · intro x hx
      simp at hx
      rcases hx with rfl | rfl <;> norm_num
    · norm_num
  exact ⟨(metrics_identity_nonneg_symm_asym.1 _ hvp).1,
    metrics_identity_nonneg_symm_asym.2.1 _ _ hvp hvq rfl,
    metrics_identity_nonneg_symm_asym.2.2.1 _ _ hvp hvq rfl⟩

end SSR

namespace SSR

/-! ## `compare_survey_runs` (ground_truth_metrics.py, lines 169–259) -/

/-- One ground-truth `aggregated_distributions[category][question_id]`
record; only `mean_probabilities` is read. -/
structure GroundTruthQuestion where
  mean_probabilities : List ℝ

/-- One test-run `distributions[category][question_id][respondent_id]`
record; only `probabilities` is read. -/
structure TestRespondentDist where
  probabilities : List ℝ

/-- The ground-truth record: nested dicts embedded as association lists. -/
structure GroundTruthRecord where
  aggregated_distributions : List (String × List (String × GroundTruthQuestion))

/-- The test-run record: nested dicts embedded as association lists. -/
structure TestRunRecord where
  distributions :
    List (String × List (String × List (String × TestRespondentDist)))

/-- `np.std` of a list of scalars: population standard deviation. -/
def listStd (l : List ℝ) : ℝ :=
  Real.sqrt ((l.map (fun x => (x - listMean l) ^ 2)).sum / l.length)

/-- The category-level aggregate (ground_truth_metrics.py, lines 237–243). -/
structure CategoryAggMetrics where
  mean_kl_divergence : ℝ
  mean_js_divergence : ℝ
  mean_wasserstein : ℝ
  mean_mae : ℝ
  num_questions : ℕ

/-- The overall aggregate (ground_truth_metrics.py, lines 247–257). -/
structure OverallMetrics where
  mean_kl_divergence : ℝ
  std_kl_divergence : ℝ
  mean_js_divergence : ℝ
  std_js_divergence : ℝ
  mean_wasserstein : ℝ
  std_wasserstein : ℝ
  mean_mae : ℝ
  std_mae : ℝ
  num_questions_compared : ℕ

/-- The result of `compare_survey_runs`: `overall_metrics`/`by_category`
entries left `{}` in Python are embedded as `none`. -/
structure CompareRunsResult where
  overall_metrics : Option OverallMetrics
  by_category : List (String × Option CategoryAggMetrics)
  by_question : List (String × ComparisonMetrics)

/-- The inner question loop for one common category (lines 205–233): every
question present on both sides yields a `compare_distributions` record over
the ground-truth mean vector and the elementwise mean of the test
respondents' vectors, with `sample_size` the respondent count. -/
def questionMetrics (pValueFn : ℝ → ℕ → ℝ)
    (testQs : List (String × List (String × TestRespondentDist)))
    (qs : List (String × GroundTruthQuestion)) :
    List (String × ComparisonMetrics) :=
  qs.filterMap (fun qe => (testQs.lookup qe.1).map (fun respDists =>
    let test_probs_list := respDists.map (fun rd => rd.2.probabilities)
    (qe.1, compare_distributions pValueFn qe.2.mean_probabilities
      (meanVecs test_probs_list) test_probs_list.length)))

/-- `compare_survey_runs(ground_truth, test_run)` (lines 169–259). -/
def compare_survey_runs (pValueFn : ℝ → ℕ → ℝ)
    (ground_truth : GroundTruthRecord) (test_run : TestRunRecord) :
    CompareRunsResult :=
  let by_question := ground_truth.aggregated_distributions.flatMap (fun ce =>
    match test_run.distributions.lookup ce.1 with
    | none => []
    | some testQs => (questionMetrics pValueFn testQs ce.2).map
        (fun qm => (ce.1 ++ "_" ++ qm.1, qm.2)))
  let all_metrics := by_question.map (fun e => e.2)
  { overall_metrics :=
      if all_metrics.isEmpty then none
      else some
        { mean_kl_divergence := listMean (all_metrics.map (fun m => m.kl_divergence))
          std_kl_divergence := listStd (all_metrics.map (fun m => m.kl_divergence))
          mean_js_divergence := listMean (all_metrics.map (fun m => m.js_divergence))
          std_js_divergence := listStd (all_metrics.map (fun m => m.js_divergence))
          mean_wasserstein :=
            listMean (all_metrics.map (fun m => m.wasserstein_distance))
          std_wasserstein :=
            listStd (all_metrics.map (fun m => m.wasserstein_distance))
          mean_mae := listMean (all_metrics.map (fun m => m.mean_absolute_error))
          std_mae := listStd (all_metrics.map (fun m => m.mean_absolute_error))
          num_questions_compared := all_metrics.length }
    by_category := ground_truth.aggregated_distributions.filterMap (fun ce =>
      (test_run.distributions.lookup ce.1).map (fun testQs =>
        let ms := (questionMetrics pValueFn testQs ce.2).map (fun qm => qm.2)
        (ce.1,
          if ms.isEmpty then none
          else some
            { mean_kl_divergence := listMean (ms.map (fun m => m.kl_divergence))
              mean_js_divergence := listMean (ms.map (fun m => m.js_divergence))
              mean_wasserstein :=
                listMean (ms.map (fun m => m.wasserstein_distance))
              mean_mae := listMean (ms.map (fun m => m.mean_absolute_error))
              num_questions := ms.length })))
    by_question := by_question }

/-- The `(category, question_id)` pairs present on both sides — exactly the
pairs the Python loops reach `compare_distributions` for. -/
def commonPairs (ground_truth : GroundTruthRecord) (test_run : TestRunRecord) :
    List (String × String) :=
  ground_truth.aggregated_distributions.flatMap (fun ce =>
    match test_run.distributions.lookup ce.1 with
    | none => []
    | some testQs => ce.2.filterMap
      (fun qe => (testQs.lookup qe.1).map (fun _ => (ce.1, qe.1))))

end SSR

namespace SSR

theorem filterMap_length_congr {α β γ : Type} (f : α → Option β) (g : α → Option γ)
    (h : ∀ a, (f a).isSome = (g a).isSome) :
    ∀ l : List α, (l.filterMap f).length = (l.filterMap g).length := by
  intro l
  induction l with
  | nil => rfl
  | cons a t ih =>
    rw [List.filterMap_cons, List.filterMap_cons]
    have ha := h a
    cases hfa : f a with
    | none =>
      cases hga : g a with
      | none => exact ih
      | some c => rw [hfa, hga] at ha; simp at ha
    | some b =>
      cases hga : g a with
      | none => rw [hfa, hga] at ha; simp at ha
      | some c => simpa using ih

theorem flatMap_length_congr {α β γ : Type} (f : α → List β) (g : α → List γ)
    (h : ∀ a, (f a).length = (g a).length) :
    ∀ l : List α, (l.flatMap f).length = (l.flatMap g).length := by
  intro l
  induction l with
  | nil => rfl
  | cons a t ih =>
    rw [List.flatMap_cons, List.flatMap_cons, List.length_append,
      List.length_append, h a, ih]

theorem questionMetrics_length (pValueFn : ℝ → ℕ → ℝ)
    (testQs : List (String × List (String × TestRespondentDist)))
    (cat : String) (qs : List (String × GroundTruthQuestion)) :
    (questionMetrics pValueFn testQs qs).length =
      (qs.filterMap (fun qe => (testQs.lookup qe.1).map
        (fun _ => (cat, qe.1)))).length := by
  unfold questionMetrics
  refine filterMap_length_congr _ _ ?_ qs
  intro qe
  rw [Option.isSome_map', Option.isSome_map']

theorem compare_survey_runs_piece_length (pValueFn : ℝ → ℕ → ℝ)
    (test_run : TestRunRecord) (ce : String × List (String × GroundTruthQuestion)) :
    (match test_run.distributions.lookup ce.1 with
      | none => ([] : List (String × ComparisonMetrics))
      | some testQs => (questionMetrics pValueFn testQs ce.2).map
          (fun (qm : String × ComparisonMetrics) => (ce.1 ++ "_" ++ qm.1, qm.2))).length =
    (match test_run.distributions.lookup ce.1 with
      | none => ([] : List (String × String))
      | some testQs => ce.2.filterMap
          (fun (qe : String × GroundTruthQuestion) =>
            (testQs.lookup qe.1).map (fun _ => (ce.1, qe.1)))).length := by
  cases test_run.distributions.lookup ce.1 with
  | none => rfl
  | some testQs =>
    dsimp only
    rw [List.length_map]
    exact questionMetrics_length pValueFn testQs ce.1 ce.2

/-- C7: `compare_survey_runs` totalizes over arbitrary records (the
embedding is a total function — no raise): its `by_question` list has
exactly one entry per `(category, question_id)` pair present on both sides,
so one-sided categories and questions are skipped; a category absent from
the test run never appears in `by_category`; and when zero pairs are common,
`overall_metrics` is empty, `by_question` is empty, and every `by_category`
entry is the empty record. -/
theorem compare_survey_runs_skips_and_empty (pValueFn : ℝ → ℕ → ℝ)
    (ground_truth : GroundTruthRecord) (test_run : TestRunRecord) :
    ((compare_survey_runs pValueFn ground_truth test_run).by_question).length =
      (commonPairs ground_truth test_run).length ∧
    (∀ cat x, test_run.distributions.lookup cat = none →
      (cat, x) ∉ (compare_survey_runs pValueFn ground_truth test_run).by_category) ∧
    (commonPairs ground_truth test_run = [] →
      (compare_survey_runs pValueFn ground_truth test_run).overall_metrics = none ∧
      (compare_survey_runs pValueFn ground_truth test_run).by_question = [] ∧
      ∀ e ∈ (compare_survey_runs pValueFn ground_truth test_run).by_category,
        e.2 = none) := by
  have hlen : ((compare_survey_runs pValueFn ground_truth test_run).by_question).length =
      (commonPairs ground_truth test_run).length :=
    flatMap_length_congr _ _
      (compare_survey_runs_piece_length pValueFn test_run)
      ground_truth.aggregated_distributions
  refine ⟨hlen, ?_, ?_⟩
  · intro cat x hnone hmem
    rcases List.mem_filterMap.mp hmem with ⟨ce, _, hsome⟩
    cases hl : test_run.distributions.lookup ce.1 with
    | none => rw [hl] at hsome; simp at hsome
    | some testQs =>
      rw [hl] at hsome
      have hkey : ce.1 = cat := congrArg Prod.fst (Option.some.inj hsome)
      rw [hkey] at hl
      rw [hl] at hnone
      exact Option.noConfusion hnone
  · intro hcp
    have hbq : (compare_survey_runs pValueFn ground_truth test_run).by_question = [] := by
      rw [← List.length_eq_zero, hlen, hcp]
      rfl
    have hempty : ∀ ce ∈ ground_truth.aggregated_distributions,
        (match test_run.distributions.lookup ce.1 with
          | none => ([] : List (String × String))
          | some testQs => ce.2.filterMap
              (fun qe => (testQs.lookup qe.1).map (fun _ => (ce.1, qe.1)))) = [] :=
      List.flatMap_eq_nil_iff.mp hcp
    refine ⟨?_, hbq, ?_⟩
    · show (if ((compare_survey_runs pValueFn ground_truth
          test_run).by_question.map (fun e => e.2)).isEmpty then none
          else _) = none
      rw [hbq]
      rfl
    · intro e he
      rcases List.mem_filterMap.mp he with ⟨ce, hce, hsome⟩
      cases hl : test_run.distributions.lookup ce.1 with
      | none => rw [hl] at hsome; simp at hsome
      | some testQs =>
        rw [hl] at hsome
        have hcomp := hempty ce hce
        rw [hl] at hcomp
        dsimp only at hcomp
        have hq0 : (questionMetrics pValueFn testQs ce.2).length = 0 := by
          rw [questionMetrics_length pValueFn testQs ce.1 ce.2, hcomp]
          rfl
        have hqnil : questionMetrics pValueFn testQs ce.2 = [] :=
          List.length_eq_zero.mp hq0
        have he2 : e = (ce.1, none) := by
          have := Option.some.inj hsome
          rw [← this]
          dsimp only
          rw [hqnil]
          rfl
        rw [he2]
  
/-- Witness for C7: a ground truth with one category and an empty test run —
no common pairs, empty results, and the ground-truth-only category is absent. -/
theorem compare_survey_runs_skips_and_empty_witness :
    (compare_survey_runs (fun _ _ => (0 : ℝ))
        ⟨[("catA", [("q1", ⟨[1, 0]⟩)])]⟩ ⟨[]⟩).by_question.length =
      (commonPairs ⟨[("catA", [("q1", ⟨[1, 0]⟩)])]⟩ ⟨[]⟩).length ∧
    (("catA", (none : Option CategoryAggMetrics)) ∉
      (compare_survey_runs (fun _ _ => (0 : ℝ))
        ⟨[("catA", [("q1", ⟨[1, 0]⟩)])]⟩ ⟨[]⟩).by_category) ∧
    (compare_survey_runs (fun _ _ => (0 : ℝ))
      ⟨[("catA", [("q1", ⟨[1, 0]⟩)])]⟩ ⟨[]⟩).overall_metrics = none ∧
    (compare_survey_runs (fun _ _ => (0 : ℝ))
      ⟨[("catA", [("q1", ⟨[1, 0]⟩)])]⟩ ⟨[]⟩).by_question = [] ∧
    ∀ e ∈ (compare_survey_runs (fun _ _ => (0 : ℝ))
      ⟨[("catA", [("q1", ⟨[1, 0]⟩)])]⟩ ⟨[]⟩).by_category, e.2 = none := by
  have h := compare_survey_runs_skips_and_empty (fun _ _ => (0 : ℝ))
    ⟨[("catA", [("q1", ⟨[1, 0]⟩)])]⟩ ⟨[]⟩
  have hcp : commonPairs (⟨[("catA", [("q1", ⟨[1, 0]⟩)])]⟩ : GroundTruthRecord)
      (⟨[]⟩ : TestRunRecord) = [] := rfl
  exact ⟨h.1, h.2.1 "catA" none rfl, (h.2.2 hcp).1, (h.2.2 hcp).2.1,
    (h.2.2 hcp).2.2⟩

end SSR

namespace SSR

theorem sum_map_mul (a : ℝ) (l : List ℝ) :
    (l.map (fun x => a * x)).sum = a * l.sum := by
  induction l with
  | nil => simp
  | cons x t ih =>
    simp only [List.map_cons, List.sum_cons, ih]
    ring

theorem normalizeList_scale {a : ℝ} (ha : a ≠ 0) (l : List ℝ) :
    normalizeList (l.map (fun x => a * x)) = normalizeList l := by
  unfold normalizeList
  rw [List.map_map, sum_map_mul]
  refine List.map_congr_left ?_
  intro x _
  show a * x / (a * l.sum) = x / l.sum
  exact mul_div_mul_left x l.sum ha

/-- C10: `compare_distributions` is invariant under positive rescaling of
either input — both inputs are renormalized to sum to 1 before any metric
is computed, so every reported metric (the chi-squared p-value included,
since it depends only on the statistic and the degrees of freedom)
coincides. -/
theorem compare_distributions_scale_invariant (pValueFn : ℝ → ℕ → ℝ)
    (p q : List ℝ) (n : ℕ) (a b : ℝ) (ha : 0 < a) (hb : 0 < b)
    (hp : validProbVec p) (hq : validProbVec q) (hlen : p.length = q.length) :
    compare_distributions pValueFn (p.map (fun x => a * x))
        (q.map (fun x => b * x)) n =
      compare_distributions pValueFn p q n := by
  unfold compare_distributions
  rw [normalizeList_scale (ne_of_gt ha), normalizeList_scale (ne_of_gt hb)]

/-- Witness for C10: scaling [1/2, 1/2] by 2 and [1, 0] by 3 at sample
size 7. -/
theorem compare_distributions_scale_invariant_witness :
    compare_distributions (fun _ _ => (0 : ℝ))
        ([(1 : ℝ) / 2, 1 / 2].map (fun x => 2 * x))
        ([(1 : ℝ), 0].map (fun x => 3 * x)) 7 =
      compare_distributions (fun _ _ => (0 : ℝ)) [(1 : ℝ) / 2, 1 / 2] [1, 0] 7 := by
  refine compare_distributions_scale_invariant (fun _ _ => (0 : ℝ))
    [(1 : ℝ) / 2, 1 / 2] [1, 0] 7 2 3 (by norm_num) (by norm_num) ?_ ?_ rfl
  · constructor
    · intro x hx
      simp at hx
      rcases hx with rfl | rfl <;> norm_num
    · norm_num
  · constructor
    · intro x hx
      simp at hx
      rcases hx with rfl | rfl <;> norm_num
    · norm_num

end SSR
